import Mathlib

/-!
Verification development for the hybrid (classical + post-quantum) message
encryption core of the chatter-shack repository.

The development shallowly embeds the crypto module (crypto.ts, bundled into
src/src/components/ChatWindow.tsx) and the sendMessage flow of the chat
window component.  Byte strings are modelled as List Nat with entries below
256 where the source manipulates real bytes.  Randomness (nacl.randomBytes,
nacl.box.keyPair, ML-KEM encapsulation coins) is passed explicitly as
parameters, the standard shallow embedding of an RNG.  Base64 transport
(naclUtil.encodeBase64 / decodeBase64) is a bijection between byte arrays
and their encodings and is elided: the local storage model holds the decoded
byte lists directly.

The two cryptographic primitives that live outside the repository are
modelled at their interface, faithful to the structure of the libraries the
source calls:

* tweetnacl x25519 (nacl.box.keyPair, nacl.box.before): modelled as honest
  discrete-log Diffie-Hellman over a small prime field, with the HSalsa20
  post-processing of the raw shared point modelled by an arbitrary
  deterministic 32-byte expansion.  The Diffie-Hellman symmetry that the
  decryption path relies on is proved, not assumed.

* mlkem MlKem768 (encap, decap): modelled as an idealised implicit-rejection
  KEM.  A real ML-KEM-768 secret key literally contains the public key
  (sk = s || pk || H(pk) || z), decapsulation never rejects a
  well-formed capsule, and distinct capsules yield independent shared
  secrets; the model mirrors this by deriving the shared secret as a
  collision-free function of the capsule and the public key recovered from
  the secret key.  Encapsulation rejects byte strings that are not
  well-formed public keys, as the library does for wrong-length inputs.

* tweetnacl secretbox (XSalsa20-Poly1305): ciphertext = authentication tag
  followed by the stream-xored message, with the Poly1305 tag idealised as a
  collision-free function of (key, nonce, message).  tweetnacl defines
  nacl.box.open.after to be nacl.secretbox.open (crypto_box_open_afternm is
  crypto_secretbox_open), which the model reproduces.
-/

namespace ChatterShack

/-! ### Byte-string helpers -/

/-- Little-endian base-256 value of a byte list (used where the source treats
a 32-byte array as a scalar). -/
def bytesToNat (l : List Nat) : Nat :=
  l.foldr (fun b acc => b + 256 * acc) 0

/-- Injective encoding of a byte list as a natural number: base-257 with
digits shifted by one, so it is injective on lists whose entries are below
256. -/
def encBytes (l : List Nat) : Nat :=
  l.foldr (fun b acc => (b + 1) + 257 * acc) 0

/-- Fuel-driven base-256 digit expansion (least significant byte first).
The fuel argument makes the recursion structural, so the definition reduces
inside the kernel. -/
def natToBytesAux : Nat → Nat → List Nat
  | 0, _ => []
  | fuel + 1, n => if n = 0 then [] else n % 256 :: natToBytesAux fuel (n / 256)

/-- Base-256 byte expansion of a natural number. -/
def natToBytes (n : Nat) : List Nat :=
  natToBytesAux n n

/-- Flip bit j of the byte at index i (out-of-range indices leave the list
unchanged, matching the usual array semantics). -/
def flipBit (bs : List Nat) (i j : Nat) : List Nat :=
  bs.set i (bs.getD i 0 ^^^ 2 ^ j)

/-! ### Error kinds (section 7 of the spec, as the source distinguishes them) -/

/-- Error kinds surfaced by the crypto module.  The source throws Error
values whose message strings distinguish exactly these situations; the
catch-and-rethrow wrappers (Hybrid encryption failed, Hybrid decryption
failed) preserve the failure and only decorate the message, so they are not
modelled separately. -/
inductive CryptoError where
  | missingParameter
  | identityKeyNotFound (userId : String)
  | pqcKeyNotFound (userId : String)
  | encapsulationFailure
  | authenticationFailure
deriving DecidableEq, Repr

/-! ### tweetnacl x25519 model (nacl.box.keyPair / nacl.box.before) -/

/-- Toy field modulus of the Diffie-Hellman group. -/
def dhP : Nat := 251

/-- Group generator (the role of the x25519 base point). -/
def dhG : Nat := 7

/-- Serialise a group element (a value below dhP) as a 32-byte string. -/
def groupElemBytes (x : Nat) : List Nat :=
  x :: List.replicate 31 0

/-- Scalar multiplication in the toy group: exponentiation modulo dhP. -/
def curveMul (P s : Nat) : Nat :=
  P ^ s % dhP

/-- Deterministic expansion of the raw shared group element into 32 bytes,
standing for the HSalsa20 step inside crypto_box_beforenm. -/
def hsalsaBytes (x : Nat) : List Nat :=
  (List.range 32).map fun i => (x * 131 + i * 17 + 5) % 256

/-- Model of nacl.box.before: the 32-byte shared key derived from a public
key and a secret key. -/
def boxBefore (pk sk : List Nat) : List Nat :=
  hsalsaBytes (curveMul (bytesToNat pk) (bytesToNat sk))

/-- Public key corresponding to a secret key (scalar multiplication of the
base point). -/
def boxPub (sk : List Nat) : List Nat :=
  groupElemBytes (curveMul dhG (bytesToNat sk))

/-- A classical key pair as tweetnacl returns it: raw byte arrays. -/
structure NaclKeyPair where
  publicKey : List Nat
  secretKey : List Nat
deriving DecidableEq, Repr

/-- Secret-key bytes freshly drawn from the RNG seed; always nonempty, as a
real 32-byte nacl secret key is. -/
def boxSecretKeyBytes (seed : Nat) : List Nat :=
  seed % 256 :: natToBytes (seed / 256)

/-- Model of nacl.box.keyPair with explicit randomness. -/
def boxKeyPair (seed : Nat) : NaclKeyPair :=
  { publicKey := boxPub (boxSecretKeyBytes seed)
    secretKey := boxSecretKeyBytes seed }

/-- Model of nacl.box.keyPair.fromSecretKey: recompute the public half from
the secret half. -/
def boxKeyPairFromSecretKey (sk : List Nat) : NaclKeyPair :=
  { publicKey := boxPub sk, secretKey := sk }

/-! ### ML-KEM-768 model (idealised implicit-rejection KEM) -/

/-- Public key recovered from an ML-KEM secret key.  A real ML-KEM-768
secret key contains the public key verbatim; the model prefixes a tag byte
so that well-formed public keys are recognisable, standing for the length
and format checks of the library. -/
def mlkemPub (sk : List Nat) : List Nat :=
  1 :: sk

/-- Shared secret derived from a capsule and a public key: a collision-free
function of the capsule (idealised implicit rejection), padded to the
32-entry shape of a real ML-KEM shared secret. -/
def kemSecret (capsule pk : List Nat) : List Nat :=
  Nat.pair (encBytes capsule) (encBytes pk) :: List.replicate 31 0

/-- Model of MlKem768.encap with explicit coins: rejects inputs that are not
well-formed public keys (the library throws on wrong-length byte strings),
otherwise produces the capsule and the shared secret. -/
def mlkemEncap (pk : List Nat) (r : Nat) : Except CryptoError (List Nat × List Nat) :=
  if pk.headD 0 = 1 then
    let capsule := natToBytes (Nat.pair (encBytes pk) r)
    .ok (capsule, kemSecret capsule pk)
  else
    .error .encapsulationFailure

/-- Model of MlKem768.decap: never rejects a capsule (implicit rejection);
derives the shared secret from the capsule and the public key contained in
the secret key. -/
def mlkemDecap (capsule sk : List Nat) : List Nat :=
  kemSecret capsule (mlkemPub sk)

/-! ### tweetnacl secretbox model (XSalsa20-Poly1305) -/

/-- Keystream byte i of the XSalsa20 stream for a key and nonce (an
arbitrary deterministic byte-valued function of all three). -/
def streamByte (key nonce : List Nat) (i : Nat) : Nat :=
  (key.headD 0 + encBytes key.tail + encBytes nonce + i * 37 + 11) % 256

/-- Stream-xor a byte list starting at stream position i. -/
def maskBytes (key nonce : List Nat) : Nat → List Nat → List Nat
  | _, [] => []
  | i, b :: t => (b ^^^ streamByte key nonce i) :: maskBytes key nonce (i + 1) t

/-- Idealised Poly1305 tag: a collision-free function of key, nonce and
message.  The key argument always has the 32-entry xorCombine shape, so it
is encoded by its head together with its byte-valued tail. -/
def macTag (key nonce msg : List Nat) : Nat :=
  Nat.pair (Nat.pair (key.headD 0) (encBytes key.tail))
    (Nat.pair (encBytes nonce) (encBytes msg))

/-- Model of nacl.secretbox: authentication tag followed by the stream-xored
message. -/
def secretbox (msg nonce key : List Nat) : List Nat :=
  macTag key nonce msg :: maskBytes key nonce 0 msg

/-- Model of nacl.secretbox.open: recover the message, recompute the tag and
fail closed on any mismatch. -/
def secretboxOpen (box nonce key : List Nat) : Option (List Nat) :=
  match box with
  | [] => none
  | tag :: body =>
    let msg := maskBytes key nonce 0 body
    if macTag key nonce msg = tag then some msg else none

/-- Model of nacl.box.open.after.  tweetnacl defines nacl.box.open.after to
be nacl.secretbox.open (crypto_box_open_afternm is crypto_secretbox_open),
so the model is that same function. -/
def boxOpenAfter (box nonce key : List Nat) : Option (List Nat) :=
  secretboxOpen box nonce key

/-! ### The hybrid XOR combiner (steps 3 of encryptMessage / decryptMessage) -/

/-- The byte-wise XOR loop over indices 0..31 that combines the ML-KEM
shared secret with the x25519 shared secret into the 32-byte finalKey. -/
def xorCombine (sharedSecret ephemeralShared : List Nat) : List Nat :=
  (List.range 32).map fun i => sharedSecret.getD i 0 ^^^ ephemeralShared.getD i 0

/-! ### localStorage model and the key-management operations of crypto.ts -/

/-- The browser localStorage surface: an association list of string keys to
stored values.  Stored values are the byte lists whose base64 encodings the
source actually writes. -/
abbrev Storage := List (String × List Nat)

/-- Lookup of a stored entry (localStorage.getItem). -/
def getItem : Storage → String → Option (List Nat)
  | [], _ => none
  | (k, v) :: s, key => if k = key then some v else getItem s key

/-- Overwriting write of an entry (localStorage.setItem): the new binding
shadows any previous one. -/
def setItem (s : Storage) (key : String) (v : List Nat) : Storage :=
  (key, v) :: s

/-- Removal of an entry (localStorage.removeItem): drops every binding of
the key. -/
def removeItem (s : Storage) (key : String) : Storage :=
  s.filter fun p => p.1 ≠ key

/-- Storage key for the classical identity private key of a user. -/
def getIdentityPrivateKeyName (userId : String) : String :=
  "identity_private_key_" ++ userId

/-- Storage key for the PQC identity private key of a user. -/
def getPqcIdentityPrivateKeyName (userId : String) : String :=
  "pqc_identity_private_key_" ++ userId

/-- Storage key for the ephemeral private key of a conversation (the
constant named EPHEMERAL KEYS PREFIX in the source, prepended to the
conversation id). -/
def ephemeralKeyName (conversationId : String) : String :=
  "ephemeral_key_" ++ conversationId

/-- Model of getIdentityPrivateKey: plain lookup; the source returns the
stored string, which callers test for JavaScript truthiness (null and the
empty string are both falsy). -/
def getIdentityPrivateKey (store : Storage) (userId : String) : Option (List Nat) :=
  getItem store (getIdentityPrivateKeyName userId)

/-- Model of getPqcPrivateKey: the source returns null both when no entry is
stored and when the stored string is empty (falsy), otherwise the decoded
bytes. -/
def getPqcPrivateKey (store : Storage) (userId : String) : Option (List Nat) :=
  match getItem store (getPqcIdentityPrivateKeyName userId) with
  | none => none
  | some stored => if stored.isEmpty then none else some stored

/-- JavaScript truthiness of a nullable string: null and the empty string
are falsy. -/
def jsTruthyStr : Option (List Nat) → Bool
  | none => false
  | some v => !v.isEmpty

/-- Model of storeHybridPrivateKeys: persists both private halves scoped by
the user id. -/
def storeHybridPrivateKeys (store : Storage) (userId : String)
    (classicalPrivateKey pqcPrivateKey : List Nat) : Storage :=
  setItem (setItem store (getIdentityPrivateKeyName userId) classicalPrivateKey)
    (getPqcIdentityPrivateKeyName userId) pqcPrivateKey

/-- Model of storeEphemeralPrivateKey. -/
def storeEphemeralPrivateKey (store : Storage) (conversationId : String)
    (privateKey : List Nat) : Storage :=
  setItem store (ephemeralKeyName conversationId) privateKey

/-- Model of getEphemeralPrivateKey. -/
def getEphemeralPrivateKey (store : Storage) (conversationId : String) : Option (List Nat) :=
  getItem store (ephemeralKeyName conversationId)

/-- Model of clearUserKeys: remove both private-key entries of the user. -/
def clearUserKeys (store : Storage) (userId : String) : Storage :=
  removeItem (removeItem store (getIdentityPrivateKeyName userId))
    (getPqcIdentityPrivateKeyName userId)

/-- Model of hasUserKeys: true iff both lookups are truthy (the double-bang
coercion in the source). -/
def hasUserKeys (store : Storage) (userId : String) : Bool :=
  jsTruthyStr (getIdentityPrivateKey store userId) &&
    (getPqcPrivateKey store userId).isSome

/-! ### Hybrid encryption and decryption (encryptMessage / decryptMessage) -/

/-- Wire form of one hybrid envelope; the source base64-encodes each binary
field, which the model elides. -/
structure HybridEncryptedMessage where
  ciphertext : List Nat
  nonce : List Nat
  ephemeralPublicKey : List Nat
  kemCapsule : List Nat
deriving DecidableEq, Repr

/-- Steps 1 to 3 of encryptMessage: generate the ephemeral classical pair,
run ML-KEM encapsulation, compute the x25519 shared secret and combine the
two by byte-wise XOR.  Returns the capsule, the ephemeral public key and
the finalKey. -/
def hybridEncapsulate (recipientClassicalPublicKey recipientPqcPublicKey : List Nat)
    (ephSeed kemRand : Nat) : Except CryptoError (List Nat × List Nat × List Nat) :=
  let ephemeralKeyPair := boxKeyPair ephSeed
  match mlkemEncap recipientPqcPublicKey kemRand with
  | .error e => .error e
  | .ok (kemCapsule, sharedSecret) =>
    let ephemeralShared := boxBefore recipientClassicalPublicKey ephemeralKeyPair.secretKey
    .ok (kemCapsule, ephemeralKeyPair.publicKey, xorCombine sharedSecret ephemeralShared)

/-- Model of encryptMessage.  The validation guard rejects falsy arguments,
and in JavaScript the empty string is falsy, so an empty message (or empty
key string) is a missing parameter.  Randomness (ephemeral key pair seed,
encapsulation coins, fresh nonce) is explicit. -/
def encryptMessage (message recipientClassicalPublicKey recipientPqcPublicKey : List Nat)
    (ephSeed kemRand : Nat) (nonce : List Nat) :
    Except CryptoError HybridEncryptedMessage :=
  if message.isEmpty || recipientClassicalPublicKey.isEmpty ||
      recipientPqcPublicKey.isEmpty then
    .error .missingParameter
  else
    match hybridEncapsulate recipientClassicalPublicKey recipientPqcPublicKey
        ephSeed kemRand with
    | .error e => .error e
    | .ok (kemCapsule, ephemeralPublicKey, finalKey) =>
      .ok { ciphertext := secretbox message nonce finalKey
            nonce := nonce
            ephemeralPublicKey := ephemeralPublicKey
            kemCapsule := kemCapsule }

/-- Steps 1 to 3 of decryptMessage: ML-KEM decapsulation with the stored PQC
private key, x25519 key exchange of the transmitted ephemeral public key
with the stored classical private key, byte-wise XOR combination. -/
def decryptFinalKey (kemCapsule ephemeralPublicKey identityPrivKey pqcPrivateKey : List Nat) :
    List Nat :=
  xorCombine (mlkemDecap kemCapsule pqcPrivateKey)
    (boxBefore ephemeralPublicKey identityPrivKey)

/-- Model of decryptMessage.  The key lookups run before any cryptographic
work and throw key-not-found errors on falsy results; the ephemeral public
key is taken from the encrypted message itself, not from the
senderEphemeralPublicKey parameter (the source keeps but ignores that
parameter); with useOldFormat false the current secretbox construction is
tried first and the legacy construction only on a null result; a null from
every attempted construction surfaces as an authentication failure. -/
def decryptMessage (encryptedMessage : HybridEncryptedMessage)
    (senderEphemeralPublicKey : List Nat) (store : Storage) (userId : String)
    (useOldFormat : Bool) : Except CryptoError (List Nat) :=
  match getIdentityPrivateKey store userId with
  | none => .error (.identityKeyNotFound userId)
  | some identityPrivKey =>
    if identityPrivKey.isEmpty then .error (.identityKeyNotFound userId)
    else
      match getPqcPrivateKey store userId with
      | none => .error (.pqcKeyNotFound userId)
      | some recipientPqcPrivateKey =>
        let finalKey := decryptFinalKey encryptedMessage.kemCapsule
          encryptedMessage.ephemeralPublicKey identityPrivKey recipientPqcPrivateKey
        let decrypted : Option (List Nat) :=
          if useOldFormat then
            boxOpenAfter encryptedMessage.ciphertext encryptedMessage.nonce finalKey
          else
            match secretboxOpen encryptedMessage.ciphertext encryptedMessage.nonce
                finalKey with
            | some d => some d
            | none =>
              boxOpenAfter encryptedMessage.ciphertext encryptedMessage.nonce finalKey
        match decrypted with
        | none => .error .authenticationFailure
        | some d => .ok d

/-- Model of deriveConversationKeyPair as the source returns it: base64
strings for both halves, here byte lists. -/
structure KeyPair where
  publicKey : List Nat
  privateKey : List Nat
deriving DecidableEq, Repr

/-- Fresh-generation branch of deriveConversationKeyPair: draw a new pair
and persist its private half under the conversation id. -/
def deriveFreshConversationKeyPair (store : Storage) (conversationId : String)
    (seed : Nat) : KeyPair × Storage :=
  let rawPair := boxKeyPair seed
  let keyPair : KeyPair :=
    { publicKey := rawPair.publicKey, privateKey := rawPair.secretKey }
  (keyPair, storeEphemeralPrivateKey store conversationId keyPair.privateKey)

/-- Model of deriveConversationKeyPair: reuse the stored private half when
one is present (truthy), recomputing the public half from it via
nacl.box.keyPair.fromSecretKey, otherwise generate and persist a fresh
pair. -/
def deriveConversationKeyPair (store : Storage) (conversationId : String)
    (seed : Nat) : KeyPair × Storage :=
  match getEphemeralPrivateKey store conversationId with
  | some existingPrivateKey =>
    if existingPrivateKey.isEmpty then
      deriveFreshConversationKeyPair store conversationId seed
    else
      ({ publicKey := (boxKeyPairFromSecretKey existingPrivateKey).publicKey
         privateKey := existingPrivateKey }, store)
  | none => deriveFreshConversationKeyPair store conversationId seed

/-! ### The dual-envelope send path (sendMessage in the chat window) -/

/-- The combined content object the send path persists as one JSON string. -/
structure DualEnvelope where
  forRecipient : HybridEncryptedMessage
  forSender : HybridEncryptedMessage
deriving DecidableEq, Repr

/-- Model of the sendMessage flow.  Inputs are the trimmed plaintext, the
published key fields of the own profile row and of the recipient (nullable
strings), and the randomness of the two encryptions.  The result is the
content inserted into the message store: none when the function returns
without inserting (empty message, missing keys, or an encryption error
caught by the try block), some dual envelope when both encryptions
succeeded and the single insert runs. -/
def sendMessage (newMessage : List Nat)
    (ownPublicKey ownPqcPublicKey recipientPublicKey recipientPqcPublicKey :
      Option (List Nat))
    (ephSeed1 kemRand1 : Nat) (nonce1 : List Nat)
    (ephSeed2 kemRand2 : Nat) (nonce2 : List Nat) : Option DualEnvelope :=
  if newMessage.isEmpty then none
  else if !(jsTruthyStr ownPublicKey && jsTruthyStr ownPqcPublicKey) then none
  else if !(jsTruthyStr recipientPublicKey && jsTruthyStr recipientPqcPublicKey) then
    none
  else
    match encryptMessage newMessage (recipientPublicKey.getD [])
        (recipientPqcPublicKey.getD []) ephSeed1 kemRand1 nonce1 with
    | .error _ => none
    | .ok encryptedForRecipient =>
      match encryptMessage newMessage (ownPublicKey.getD [])
          (ownPqcPublicKey.getD []) ephSeed2 kemRand2 nonce2 with
      | .error _ => none
      | .ok encryptedForSelf =>
        some { forRecipient := encryptedForRecipient, forSender := encryptedForSelf }

/-! ### Helper lemmas: byte strings -/

instance {ε α : Type} [DecidableEq ε] [DecidableEq α] : DecidableEq (Except ε α) :=
  fun a b =>
    match a, b with
    | .ok x, .ok y => decidable_of_iff (x = y) (by simp)
    | .error x, .error y => decidable_of_iff (x = y) (by simp)
    | .ok _, .error _ => .isFalse (by simp)
    | .error _, .ok _ => .isFalse (by simp)

theorem bytesToNat_nil : bytesToNat [] = 0 := rfl

theorem bytesToNat_cons (b : Nat) (t : List Nat) :
    bytesToNat (b :: t) = b + 256 * bytesToNat t := rfl

theorem encBytes_nil : encBytes [] = 0 := rfl

theorem encBytes_cons (b : Nat) (t : List Nat) :
    encBytes (b :: t) = (b + 1) + 257 * encBytes t := rfl

theorem bytesToNat_replicate_zero (n : Nat) : bytesToNat (List.replicate n 0) = 0 := by
  induction n with
  | zero => rfl
  | succ k ih => simpa [List.replicate_succ, bytesToNat_cons] using ih

theorem bytesToNat_groupElemBytes (x : Nat) : bytesToNat (groupElemBytes x) = x := by
  simp [groupElemBytes, bytesToNat_cons, bytesToNat_replicate_zero, bytesToNat_nil]

/-- encBytes is injective on genuine byte lists (all entries below 256). -/
theorem encBytes_injOn {l1 l2 : List Nat} (h1 : ∀ b ∈ l1, b < 256)
    (h2 : ∀ b ∈ l2, b < 256) (h : encBytes l1 = encBytes l2) : l1 = l2 := by
  induction l1 generalizing l2 with
  | nil =>
    cases l2 with
    | nil => rfl
    | cons b t =>
      rw [encBytes_nil, encBytes_cons] at h
      omega
  | cons b1 t1 ih =>
    cases l2 with
    | nil =>
      rw [encBytes_nil, encBytes_cons] at h
      omega
    | cons b2 t2 =>
      have hb1 : b1 < 256 := h1 b1 (by simp)
      have hb2 : b2 < 256 := h2 b2 (by simp)
      rw [encBytes_cons, encBytes_cons] at h
      have hmod := congrArg (· % 257) h
      simp only [Nat.add_mul_mod_self_left] at hmod
      have hb : b1 = b2 := by omega
      subst hb
      have ht : encBytes t1 = encBytes t2 := by omega
      have := ih (fun b hb => h1 b (by simp [hb])) (fun b hb => h2 b (by simp [hb])) ht
      rw [this]

/-- Every entry produced by natToBytesAux is a byte. -/
theorem natToBytesAux_lt (fuel n : Nat) : ∀ b ∈ natToBytesAux fuel n, b < 256 := by
  induction fuel generalizing n with
  | zero => intro b hb; simp [natToBytesAux] at hb
  | succ f ih =>
    intro b hb
    by_cases h : n = 0
    · simp [natToBytesAux, h] at hb
    · simp only [natToBytesAux, if_neg h, List.mem_cons] at hb
      rcases hb with hb | hb
      · subst hb
        exact Nat.mod_lt _ (by norm_num)
      · exact ih _ b hb

theorem natToBytes_lt (n : Nat) : ∀ b ∈ natToBytes n, b < 256 :=
  natToBytesAux_lt n n

/-- Flipping a bit never fixes a number. -/
theorem xor_pow_ne (x j : Nat) : x ^^^ 2 ^ j ≠ x := by
  intro h
  have h2 : (x ^^^ 2 ^ j) ^^^ x = 0 := by rw [h, Nat.xor_self]
  rw [Nat.xor_comm x (2 ^ j), Nat.xor_cancel_right] at h2
  exact absurd h2 (Nat.pos_iff_ne_zero.mp (Nat.pos_pow_of_pos j (by norm_num))).elim

/-- Flipping a bit of a byte yields a byte. -/
theorem flip_byte_lt {x : Nat} (hx : x < 256) {j : Nat} (hj : j < 8) :
    x ^^^ 2 ^ j < 256 := by
  have h2 : (2 : Nat) ^ j < 2 ^ 8 := Nat.pow_lt_pow_right (by norm_num) hj
  exact Nat.xor_lt_two_pow (n := 8) hx h2

theorem length_flipBit (bs : List Nat) (i j : Nat) :
    (flipBit bs i j).length = bs.length := by
  simp [flipBit]

/-- A bit flip at a valid index changes the list. -/
theorem flipBit_ne {bs : List Nat} {i : Nat} (hi : i < bs.length) (j : Nat) :
    flipBit bs i j ≠ bs := by
  intro h
  have hget := congrArg (fun l => l.getD i 0) h
  simp only [flipBit] at hget
  rw [List.getD_eq_getElem _ _ (by simpa [flipBit] using hi)] at hget
  rw [List.getElem_set_self] at hget
  rw [List.getD_eq_getElem _ _ hi] at hget
  exact xor_pow_ne _ j (by simpa [List.getD_eq_getElem _ _ hi] using hget)

/-- Entries of a flipped byte list are still bytes when the flipped bit is
one of the eight bits of a byte. -/
theorem flipBit_bytes {bs : List Nat} (hbs : ∀ b ∈ bs, b < 256) {i j : Nat}
    (hj : j < 8) : ∀ b ∈ flipBit bs i j, b < 256 := by
  intro b hb
  rcases List.mem_or_eq_of_mem_set hb with h | h
  · exact hbs b h
  · subst h
    by_cases hi : i < bs.length
    · exact flip_byte_lt (hbs _ (by rw [List.getD_eq_getElem _ _ hi]; exact List.getElem_mem _)) hj
    · rw [List.getD_eq_default _ _ (by omega)]
      exact flip_byte_lt (by norm_num) hj

/-! ### Helper lemmas: Diffie-Hellman symmetry and KEM correctness -/

/-- Iterated scalar multiplication is exponentiation of the base with the
product of the scalars. -/
theorem curveMul_curveMul (g a b : Nat) :
    curveMul (curveMul g a) b = g ^ (a * b) % dhP := by
  simp only [curveMul]
  rw [← Nat.pow_mod, ← Nat.pow_mul]

/-- Symmetry of the classical key agreement: the shared key the sender
computes from the recipient public key and the ephemeral secret key equals
the shared key the recipient computes from the ephemeral public key and the
recipient secret key. -/
theorem boxBefore_comm (skA skB : List Nat) :
    boxBefore (boxPub skA) skB = boxBefore (boxPub skB) skA := by
  simp only [boxBefore, boxPub, bytesToNat_groupElemBytes, curveMul_curveMul]
  rw [Nat.mul_comm]

/-- Encapsulation against a well-formed public key always succeeds with the
definitional capsule and secret. -/
theorem mlkemEncap_mlkemPub (sk : List Nat) (r : Nat) :
    mlkemEncap (mlkemPub sk) r =
      .ok (natToBytes (Nat.pair (encBytes (mlkemPub sk)) r),
        kemSecret (natToBytes (Nat.pair (encBytes (mlkemPub sk)) r)) (mlkemPub sk)) := by
  simp [mlkemEncap, mlkemPub]

/-- Correctness of the modelled KEM: decapsulating the capsule produced
against the public key of a secret key recovers the encapsulated shared
secret. -/
theorem mlkemDecap_mlkemEncap {sk : List Nat} {r : Nat} {capsule secret : List Nat}
    (h : mlkemEncap (mlkemPub sk) r = .ok (capsule, secret)) :
    mlkemDecap capsule sk = secret := by
  rw [mlkemEncap_mlkemPub] at h
  simp only [Except.ok.injEq, Prod.mk.injEq] at h
  rw [mlkemDecap, ← h.1, ← h.2]

/-! ### Helper lemmas: the secretbox model -/

theorem maskBytes_nil (key nonce : List Nat) (i : Nat) :
    maskBytes key nonce i [] = [] := rfl

theorem maskBytes_cons (key nonce : List Nat) (i b : Nat) (t : List Nat) :
    maskBytes key nonce i (b :: t) =
      (b ^^^ streamByte key nonce i) :: maskBytes key nonce (i + 1) t := rfl

/-- Stream-xor is an involution. -/
theorem maskBytes_maskBytes (key nonce : List Nat) (i : Nat) (m : List Nat) :
    maskBytes key nonce i (maskBytes key nonce i m) = m := by
  induction m generalizing i with
  | nil => rfl
  | cons b t ih =>
    rw [maskBytes_cons, maskBytes_cons, Nat.xor_cancel_right, ih]

/-- Stream-xor with a fixed key, nonce and position is injective. -/
theorem maskBytes_injective (key nonce : List Nat) (i : Nat) {m1 m2 : List Nat}
    (h : maskBytes key nonce i m1 = maskBytes key nonce i m2) : m1 = m2 := by
  have h2 := congrArg (maskBytes key nonce i) h
  rwa [maskBytes_maskBytes, maskBytes_maskBytes] at h2

theorem streamByte_lt (key nonce : List Nat) (i : Nat) :
    streamByte key nonce i < 256 :=
  Nat.mod_lt _ (by norm_num)

/-- Stream-xor maps byte lists to byte lists. -/
theorem maskBytes_bytes {m : List Nat} (hm : ∀ b ∈ m, b < 256)
    (key nonce : List Nat) (i : Nat) : ∀ b ∈ maskBytes key nonce i m, b < 256 := by
  induction m generalizing i with
  | nil => intro b hb; simp [maskBytes_nil] at hb
  | cons x t ih =>
    intro b hb
    rw [maskBytes_cons] at hb
    rcases List.mem_cons.mp hb with hb | hb
    · subst hb
      exact Nat.xor_lt_two_pow (n := 8) (hm x (by simp)) (streamByte_lt key nonce i)
    · exact ih (fun c hc => hm c (by simp [hc])) (i + 1) b hb

/-- Opening a sealed box recovers the sealed message (round trip of the
symmetric layer). -/
theorem secretboxOpen_secretbox (msg nonce key : List Nat) :
    secretboxOpen (secretbox msg nonce key) nonce key = some msg := by
  simp [secretbox, secretboxOpen, maskBytes_maskBytes]

/-- What a successful open means structurally. -/
theorem secretboxOpen_eq_some {box nonce key msg : List Nat}
    (h : secretboxOpen box nonce key = some msg) :
    box = macTag key nonce msg :: maskBytes key nonce 0 msg := by
  match box with
  | [] => simp [secretboxOpen] at h
  | tag :: body =>
    simp only [secretboxOpen] at h
    by_cases htag : macTag key nonce (maskBytes key nonce 0 body) = tag
    · rw [if_pos htag] at h
      have hm : maskBytes key nonce 0 body = msg := by
        simpa using h
      rw [← hm, ← htag, maskBytes_maskBytes]
    · rw [if_neg htag] at h
      exact absurd h (by simp)

/-- The tag determines the key head, the key-tail encoding, the nonce
encoding and the message encoding. -/
theorem macTag_inj {key1 key2 nonce1 nonce2 msg1 msg2 : List Nat}
    (h : macTag key1 nonce1 msg1 = macTag key2 nonce2 msg2) :
    key1.headD 0 = key2.headD 0 ∧ encBytes key1.tail = encBytes key2.tail ∧
      encBytes nonce1 = encBytes nonce2 ∧ encBytes msg1 = encBytes msg2 := by
  simp only [macTag, Nat.pair_eq_pair] at h
  exact ⟨h.1.1, h.1.2, h.2.1, h.2.2⟩

/-! ### Helper lemmas: the XOR combiner -/

theorem length_xorCombine (s e : List Nat) : (xorCombine s e).length = 32 := by
  simp [xorCombine]

theorem xorCombine_getD (s e : List Nat) {i : Nat} (hi : i < 32) :
    (xorCombine s e).getD i 0 = s.getD i 0 ^^^ e.getD i 0 := by
  rw [xorCombine, List.getD_eq_getElem _ _ (by simpa using hi)]
  simp

theorem headD_xorCombine (s e : List Nat) :
    (xorCombine s e).headD 0 = s.getD 0 0 ^^^ e.getD 0 0 := rfl

/-- Two combined keys with the same classical share but different KEM share
heads differ at index 0. -/
theorem xorCombine_head_ne {s1 s2 : List Nat} (e : List Nat)
    (h : s1.getD 0 0 ≠ s2.getD 0 0) :
    (xorCombine s1 e).headD 0 ≠ (xorCombine s2 e).headD 0 := by
  rw [headD_xorCombine, headD_xorCombine]
  intro hEq
  have h2 := congrArg (fun x => x ^^^ e.getD 0 0) hEq
  simp only [Nat.xor_cancel_right] at h2
  exact h h2

/-! ### Helper lemmas: the localStorage model -/

theorem getItem_setItem_self (s : Storage) (k : String) (v : List Nat) :
    getItem (setItem s k v) k = some v := by
  simp [getItem, setItem]

theorem getItem_setItem_ne (s : Storage) {k k' : String} (h : k ≠ k') (v : List Nat) :
    getItem (setItem s k v) k' = getItem s k' := by
  simp [getItem, setItem, h]

theorem getItem_removeItem_self (s : Storage) (k : String) :
    getItem (removeItem s k) k = none := by
  induction s with
  | nil => rfl
  | cons p t ih =>
    obtain ⟨a, b⟩ := p
    by_cases h : a = k
    · simpa [removeItem, List.filter_cons, h] using ih
    · simpa [removeItem, List.filter_cons, getItem, h] using ih

theorem getItem_removeItem_ne {k k' : String} (h : k ≠ k') (s : Storage) :
    getItem (removeItem s k') k = getItem s k := by
  induction s with
  | nil => rfl
  | cons p t ih =>
    obtain ⟨a, b⟩ := p
    by_cases ha : a = k'
    · subst ha
      simpa [removeItem, List.filter_cons, getItem, Ne.symm h] using ih
    · by_cases hk : a = k
      · subst hk
        simp [removeItem, List.filter_cons, getItem, ha]
      · simpa [removeItem, List.filter_cons, getItem, ha, hk] using ih

theorem removeItem_of_getItem_none {s : Storage} {k : String}
    (h : getItem s k = none) : removeItem s k = s := by
  induction s with
  | nil => rfl
  | cons p t ih =>
    obtain ⟨a, b⟩ := p
    by_cases ha : a = k
    · simp [getItem, ha] at h
    · simp only [getItem, if_neg ha] at h
      simp only [removeItem, List.filter_cons]
      rw [if_pos (by simpa using ha)]
      exact congrArg (List.cons (a, b)) (ih h)

theorem removeItem_removeItem (s : Storage) (k : String) :
    removeItem (removeItem s k) k = removeItem s k :=
  removeItem_of_getItem_none (getItem_removeItem_self s k)

theorem removeItem_comm (s : Storage) (k k' : String) :
    removeItem (removeItem s k) k' = removeItem (removeItem s k') k := by
  simp only [removeItem, List.filter_filter]
  congr 1
  funext p
  exact Bool.and_comm _ _

/-- The two private-key storage names of one user are distinct (their
constant parts have different lengths). -/
theorem identityName_ne_pqcName (u : String) :
    getIdentityPrivateKeyName u ≠ getPqcIdentityPrivateKeyName u := by
  intro h
  have h2 := congrArg String.length h
  simp only [getIdentityPrivateKeyName, getPqcIdentityPrivateKeyName,
    String.length_append] at h2
  exact absurd (by omega : ("identity_private_key_" : String).length =
    ("pqc_identity_private_key_" : String).length) (by decide)

/-! ### Helper lemmas: the decryption pipeline -/

/-- Behaviour of decryptMessage in the current format once both stored keys
are found: try the secretbox construction, fall back to the legacy open on
a null result, fail closed when both return null. -/
theorem decryptMessage_keys_present {store : Storage} {userId : String}
    {ipk ppk : List Nat} (hid : getIdentityPrivateKey store userId = some ipk)
    (hne : ipk.isEmpty = false) (hpqc : getPqcPrivateKey store userId = some ppk)
    (env : HybridEncryptedMessage) (eph : List Nat) :
    decryptMessage env eph store userId false =
      match secretboxOpen env.ciphertext env.nonce
          (decryptFinalKey env.kemCapsule env.ephemeralPublicKey ipk ppk) with
      | some d => .ok d
      | none =>
        match boxOpenAfter env.ciphertext env.nonce
            (decryptFinalKey env.kemCapsule env.ephemeralPublicKey ipk ppk) with
        | some d => .ok d
        | none => .error .authenticationFailure := by
  rw [decryptMessage, hid]
  simp only [hne, Bool.false_eq_true, if_false, hpqc]
  cases hopen : secretboxOpen env.ciphertext env.nonce
      (decryptFinalKey env.kemCapsule env.ephemeralPublicKey ipk ppk) with
  | some d => simp [hopen]
  | none =>
    cases hafter : boxOpenAfter env.ciphertext env.nonce
        (decryptFinalKey env.kemCapsule env.ephemeralPublicKey ipk ppk) with
    | some d => simp [hopen, hafter]
    | none => simp [hopen, hafter]

/-- The capsule an honest encapsulation against the public key of skP and
coins r produces. -/
def honestCapsule (skP : List Nat) (r : Nat) : List Nat :=
  natToBytes (Nat.pair (encBytes (mlkemPub skP)) r)

/-- The finalKey the encryption side derives against honest recipient keys. -/
def honestSharedKey (skC skP : List Nat) (a r : Nat) : List Nat :=
  xorCombine (kemSecret (honestCapsule skP r) (mlkemPub skP))
    (boxBefore (boxPub skC) (boxSecretKeyBytes a))

/-- The envelope encryptMessage produces against honest recipient keys. -/
def honestEnvelope (m skC skP : List Nat) (a r : Nat) (nonce : List Nat) :
    HybridEncryptedMessage :=
  { ciphertext := secretbox m nonce (honestSharedKey skC skP a r)
    nonce := nonce
    ephemeralPublicKey := boxPub (boxSecretKeyBytes a)
    kemCapsule := honestCapsule skP r }

/-- Encrypting a nonempty message against honest recipient public keys
succeeds and produces exactly the honest envelope. -/
theorem encryptMessage_honest {m : List Nat} (hm : m.isEmpty = false)
    (skC skP : List Nat) (a r : Nat) (nonce : List Nat) :
    encryptMessage m (boxPub skC) (mlkemPub skP) a r nonce =
      .ok (honestEnvelope m skC skP a r nonce) := by
  rw [encryptMessage]
  have hpk : (boxPub skC).isEmpty = false := rfl
  have hpq : (mlkemPub skP).isEmpty = false := rfl
  simp only [hm, hpk, hpq, Bool.or_self, Bool.false_eq_true, if_false,
    hybridEncapsulate, boxKeyPair, mlkemEncap_mlkemPub]
  rfl

/-- The finalKey the decryption side rebuilds from the honest envelope and
the stored private keys equals the encryption-side finalKey. -/
theorem decryptFinalKey_honest (skC skP : List Nat) (a r : Nat) :
    decryptFinalKey (honestCapsule skP r) (boxPub (boxSecretKeyBytes a)) skC skP =
      honestSharedKey skC skP a r := by
  rw [decryptFinalKey, honestSharedKey, mlkemDecap,
    boxBefore_comm (boxSecretKeyBytes a) skC]

/-- Round trip of the full pipeline: decryptMessage recovers a nonempty
message from the envelope encryptMessage produced, given the stored private
keys matching the public keys used for encryption. -/
theorem decryptMessage_encryptMessage {m skC skP : List Nat} {a r : Nat}
    {nonce : List Nat} {env : HybridEncryptedMessage}
    (henc : encryptMessage m (boxPub skC) (mlkemPub skP) a r nonce = .ok env)
    {store : Storage} {userId : String}
    (hid : getIdentityPrivateKey store userId = some skC)
    (hne : skC.isEmpty = false)
    (hpqc : getPqcPrivateKey store userId = some skP) :
    decryptMessage env env.ephemeralPublicKey store userId false = .ok m := by
  have hm : m.isEmpty = false := by
    by_contra h
    rw [encryptMessage] at henc
    simp only [Bool.not_eq_false] at h
    simp [h] at henc
  rw [encryptMessage_honest hm skC skP a r nonce] at henc
  have henv : env = honestEnvelope m skC skP a r nonce := by
    injection henc.symm
  subst henv
  rw [decryptMessage_keys_present hid hne hpqc]
  show (match secretboxOpen (secretbox m nonce (honestSharedKey skC skP a r)) nonce
      (decryptFinalKey (honestCapsule skP r) (boxPub (boxSecretKeyBytes a)) skC skP) with
    | some d => Except.ok d
    | none =>
      match boxOpenAfter (secretbox m nonce (honestSharedKey skC skP a r)) nonce
          (decryptFinalKey (honestCapsule skP r) (boxPub (boxSecretKeyBytes a)) skC skP) with
      | some d => Except.ok d
      | none => Except.error CryptoError.authenticationFailure) = Except.ok m
  rw [decryptFinalKey_honest, secretboxOpen_secretbox]

/-! ### Helper lemmas: tamper detection -/

/-- Opening with a key whose first entry differs from the sealing key fails:
the recomputed tag can never match. -/
theorem secretboxOpen_wrong_key_head {m key key2 nonce : List Nat}
    (h : key2.headD 0 ≠ key.headD 0) :
    secretboxOpen (secretbox m nonce key) nonce key2 = none := by
  show (if macTag key2 nonce (maskBytes key2 nonce 0 (maskBytes key nonce 0 m)) =
      macTag key nonce m then
      some (maskBytes key2 nonce 0 (maskBytes key nonce 0 m)) else none) = none
  exact if_neg fun htag => h (macTag_inj htag).1

/-- Opening a sealed box whose ciphertext has one flipped bit fails. -/
theorem secretboxOpen_flip_ciphertext {m key nonce : List Nat}
    (hm : ∀ b ∈ m, b < 256) {i j : Nat}
    (hi : i < (secretbox m nonce key).length) (hj : j < 8) :
    secretboxOpen (flipBit (secretbox m nonce key) i j) nonce key = none := by
  rw [secretbox] at hi ⊢
  cases i with
  | zero =>
    show (if macTag key nonce (maskBytes key nonce 0 (maskBytes key nonce 0 m)) =
        macTag key nonce m ^^^ 2 ^ j then
        some (maskBytes key nonce 0 (maskBytes key nonce 0 m)) else none) = none
    rw [maskBytes_maskBytes]
    exact if_neg fun htag => xor_pow_ne (macTag key nonce m) j htag.symm
  | succ k =>
    have hk : k < (maskBytes key nonce 0 m).length := by
      simpa using hi
    show (if macTag key nonce
        (maskBytes key nonce 0 (flipBit (maskBytes key nonce 0 m) k j)) =
        macTag key nonce m then
        some (maskBytes key nonce 0 (flipBit (maskBytes key nonce 0 m) k j))
        else none) = none
    rw [if_neg]
    intro htag
    have henc := (macTag_inj htag).2.2.2
    have hbodyBytes : ∀ b ∈ flipBit (maskBytes key nonce 0 m) k j, b < 256 :=
      flipBit_bytes (maskBytes_bytes hm key nonce 0) hj
    have hmsgBytes : ∀ b ∈ maskBytes key nonce 0 (flipBit (maskBytes key nonce 0 m) k j),
        b < 256 := maskBytes_bytes hbodyBytes key nonce 0
    have hmsg : maskBytes key nonce 0 (flipBit (maskBytes key nonce 0 m) k j) = m :=
      encBytes_injOn hmsgBytes hm henc
    have hbody := congrArg (maskBytes key nonce 0) hmsg
    rw [maskBytes_maskBytes] at hbody
    exact flipBit_ne hk j hbody

/-- Opening a sealed box under a nonce with one flipped bit fails. -/
theorem secretboxOpen_flip_nonce {m key nonce : List Nat}
    (hn : ∀ b ∈ nonce, b < 256) {i j : Nat}
    (hi : i < nonce.length) (hj : j < 8) :
    secretboxOpen (secretbox m nonce key) (flipBit nonce i j) key = none := by
  show (if macTag key (flipBit nonce i j)
      (maskBytes key (flipBit nonce i j) 0 (maskBytes key nonce 0 m)) =
      macTag key nonce m then
      some (maskBytes key (flipBit nonce i j) 0 (maskBytes key nonce 0 m))
      else none) = none
  rw [if_neg]
  intro htag
  have henc := (macTag_inj htag).2.2.1
  have hflipBytes : ∀ b ∈ flipBit nonce i j, b < 256 := flipBit_bytes hn hj
  exact flipBit_ne hi j (encBytes_injOn hflipBytes hn henc)

theorem kemSecret_getD_zero (capsule pk : List Nat) :
    (kemSecret capsule pk).getD 0 0 = Nat.pair (encBytes capsule) (encBytes pk) := rfl

/-- Flipping a bit of the honest capsule changes the decapsulated shared
secret at its first entry. -/
theorem kemSecret_flip_capsule_ne {skP : List Nat} {r : Nat} {i j : Nat}
    (hi : i < (honestCapsule skP r).length) (hj : j < 8) :
    (kemSecret (flipBit (honestCapsule skP r) i j) (mlkemPub skP)).getD 0 0 ≠
      (kemSecret (honestCapsule skP r) (mlkemPub skP)).getD 0 0 := by
  rw [kemSecret_getD_zero, kemSecret_getD_zero]
  intro h
  have henc := (Nat.pair_eq_pair.mp h).1
  have hcap : ∀ b ∈ honestCapsule skP r, b < 256 := natToBytes_lt _
  exact flipBit_ne hi j (encBytes_injOn (flipBit_bytes hcap hj) hcap henc)

/-! ### Concrete fixtures for the witnesses -/

/-- Local key store of the demo recipient bob. -/
def demoStoreB : Storage :=
  [("identity_private_key_bob", [3]), ("pqc_identity_private_key_bob", [2])]

/-- Local key store of the demo sender alice. -/
def demoStoreA : Storage :=
  [("identity_private_key_alice", [4]), ("pqc_identity_private_key_alice", [6])]

/-- UTF-8 bytes of the two-character demo message hi. -/
def demoMsg : List Nat := [104, 105]

/-- Envelope produced by encrypting the demo message to bob. -/
def demoEnv : HybridEncryptedMessage :=
  (encryptMessage demoMsg (boxPub [3]) (mlkemPub [2]) 0 0 [5]).toOption.getD
    ⟨[], [], [], []⟩

/-! ### The claims -/

/-- C1 counterexample: the round-trip claim includes the empty string, but
the validation guard of encryptMessage treats the empty string as a missing
parameter (the empty string is falsy in JavaScript), so no envelope is ever
produced for it and the round trip fails at that input. -/
theorem C1_empty_message_counterexample :
    encryptMessage [] (boxPub [3]) (mlkemPub [2]) 0 0 [5] =
      .error .missingParameter := rfl

/-- C1 (amended): for every plaintext that encryptMessage accepts, in
particular every nonempty one, decrypting the produced envelope with the
recipient stored private keys matching the public keys used for encryption
returns exactly the plaintext. -/
theorem C1_round_trip (m skC skP : List Nat) (a r : Nat) (nonce : List Nat)
    (store : Storage) (userId : String) (env : HybridEncryptedMessage)
    (henc : encryptMessage m (boxPub skC) (mlkemPub skP) a r nonce = .ok env)
    (hid : getIdentityPrivateKey store userId = some skC)
    (hne : skC.isEmpty = false)
    (hpqc : getPqcPrivateKey store userId = some skP) :
    decryptMessage env env.ephemeralPublicKey store userId false = .ok m :=
  decryptMessage_encryptMessage henc hid hne hpqc

/-- C1 witness: the round trip at a concrete message, concrete keys and a
concrete store. -/
theorem C1_round_trip_witness :
    decryptMessage demoEnv demoEnv.ephemeralPublicKey demoStoreB "bob" false =
      .ok demoMsg :=
  C1_round_trip demoMsg [3] [2] 0 0 [5] demoStoreB "bob" demoEnv (by decide)
    (by decide) (by decide) (by decide)

/-- C2: the finalKey computed by the encapsulation side (ML-KEM shared
secret XORed byte-wise with the x25519 shared secret of the fresh ephemeral
secret key and the recipient classical public key) is byte-identical to the
finalKey the decryption side computes from the transmitted capsule and
ephemeral public key together with the stored private keys. -/
theorem C2_final_key_agreement (skC skP : List Nat) (a r : Nat)
    (kemCapsule ephemeralPublicKey finalKey : List Nat)
    (h : hybridEncapsulate (boxPub skC) (mlkemPub skP) a r =
      .ok (kemCapsule, ephemeralPublicKey, finalKey)) :
    decryptFinalKey kemCapsule ephemeralPublicKey skC skP = finalKey := by
  rw [hybridEncapsulate, mlkemEncap_mlkemPub] at h
  simp only [boxKeyPair, Except.ok.injEq, Prod.mk.injEq] at h
  obtain ⟨h1, h2, h3⟩ := h
  rw [← h1, ← h2, ← h3]
  exact decryptFinalKey_honest skC skP a r

/-- Results of the demo encapsulation used by the C2 witness. -/
def demoEncapsulation : List Nat × List Nat × List Nat :=
  (hybridEncapsulate (boxPub [3]) (mlkemPub [2]) 0 0).toOption.getD ([], [], [])

/-- C2 witness: key agreement at concrete keys and randomness. -/
theorem C2_final_key_agreement_witness :
    decryptFinalKey demoEncapsulation.1 demoEncapsulation.2.1 [3] [2] =
      demoEncapsulation.2.2 :=
  C2_final_key_agreement [3] [2] 0 0 demoEncapsulation.1 demoEncapsulation.2.1
    demoEncapsulation.2.2 (by decide)

/-- C3: for an honestly produced envelope, flipping any single bit of its
ciphertext, its nonce or its kemCapsule makes decryptMessage with the
correct recipient keys fail deterministically with the authentication
error, never returning a plaintext.  Byte positions are indices into the
byte list, bit positions the eight bits of a byte. -/
theorem C3_tamper_detection (m skC skP : List Nat) (a r : Nat) (nonce : List Nat)
    (store : Storage) (userId : String) (env : HybridEncryptedMessage)
    (henc : encryptMessage m (boxPub skC) (mlkemPub skP) a r nonce = .ok env)
    (hmB : ∀ b ∈ m, b < 256) (hnB : ∀ b ∈ nonce, b < 256)
    (hid : getIdentityPrivateKey store userId = some skC)
    (hne : skC.isEmpty = false)
    (hpqc : getPqcPrivateKey store userId = some skP) :
    (∀ i j, i < env.ciphertext.length → j < 8 →
      decryptMessage { env with ciphertext := flipBit env.ciphertext i j }
        env.ephemeralPublicKey store userId false =
        .error .authenticationFailure) ∧
    (∀ i j, i < env.nonce.length → j < 8 →
      decryptMessage { env with nonce := flipBit env.nonce i j }
        env.ephemeralPublicKey store userId false =
        .error .authenticationFailure) ∧
    (∀ i j, i < env.kemCapsule.length → j < 8 →
      decryptMessage { env with kemCapsule := flipBit env.kemCapsule i j }
        env.ephemeralPublicKey store userId false =
        .error .authenticationFailure) := by
  have hm : m.isEmpty = false := by
    by_contra h
    rw [encryptMessage] at henc
    simp only [Bool.not_eq_false] at h
    simp [h] at henc
  rw [encryptMessage_honest hm skC skP a r nonce] at henc
  have henv : env = honestEnvelope m skC skP a r nonce := by
    injection henc.symm
  subst henv
  refine ⟨?_, ?_, ?_⟩
  · intro i j hi hj
    rw [decryptMessage_keys_present hid hne hpqc]
    have hopen : secretboxOpen
        (flipBit (secretbox m nonce (honestSharedKey skC skP a r)) i j) nonce
        (decryptFinalKey (honestCapsule skP r) (boxPub (boxSecretKeyBytes a)) skC skP) =
        none := by
      rw [decryptFinalKey_honest]
      exact secretboxOpen_flip_ciphertext hmB hi hj
    simp [honestEnvelope, boxOpenAfter, hopen]
  · intro i j hi hj
    rw [decryptMessage_keys_present hid hne hpqc]
    have hopen : secretboxOpen (secretbox m nonce (honestSharedKey skC skP a r))
        (flipBit nonce i j)
        (decryptFinalKey (honestCapsule skP r) (boxPub (boxSecretKeyBytes a)) skC skP) =
        none := by
      rw [decryptFinalKey_honest]
      exact secretboxOpen_flip_nonce hnB hi hj
    simp [honestEnvelope, boxOpenAfter, hopen]
  · intro i j hi hj
    rw [decryptMessage_keys_present hid hne hpqc]
    have hkey : (decryptFinalKey (flipBit (honestCapsule skP r) i j)
        (boxPub (boxSecretKeyBytes a)) skC skP).headD 0 ≠
        (honestSharedKey skC skP a r).headD 0 := by
      rw [decryptFinalKey, honestSharedKey, mlkemDecap,
        boxBefore_comm (boxSecretKeyBytes a) skC]
      exact xorCombine_head_ne _ (kemSecret_flip_capsule_ne hi hj)
    have hopen : secretboxOpen (secretbox m nonce (honestSharedKey skC skP a r)) nonce
        (decryptFinalKey (flipBit (honestCapsule skP r) i j)
          (boxPub (boxSecretKeyBytes a)) skC skP) = none :=
      secretboxOpen_wrong_key_head hkey
    simp [honestEnvelope, boxOpenAfter, hopen]

/-- C3 witness: tampering with one bit of the ciphertext, of the nonce and
of the capsule of the concrete demo envelope each yields the authentication
error. -/
theorem C3_tamper_detection_witness :
    decryptMessage { demoEnv with ciphertext := flipBit demoEnv.ciphertext 0 0 }
      demoEnv.ephemeralPublicKey demoStoreB "bob" false =
      .error .authenticationFailure ∧
    decryptMessage { demoEnv with nonce := flipBit demoEnv.nonce 0 1 }
      demoEnv.ephemeralPublicKey demoStoreB "bob" false =
      .error .authenticationFailure ∧
    decryptMessage { demoEnv with kemCapsule := flipBit demoEnv.kemCapsule 0 2 }
      demoEnv.ephemeralPublicKey demoStoreB "bob" false =
      .error .authenticationFailure := by
  have h := C3_tamper_detection demoMsg [3] [2] 0 0 [5] demoStoreB "bob" demoEnv
    (by decide) (by decide) (by decide) (by decide) (by decide) (by decide)
  exact ⟨h.1 0 0 (by decide) (by decide), h.2.1 0 1 (by decide) (by decide),
    h.2.2 0 2 (by decide) (by decide)⟩

/-- C4: with useOldFormat false and the stored keys found, decryptMessage
first attempts the current authenticated construction with the derived
finalKey and nonce, attempts the legacy construction only on a null result,
stops at the first success, and surfaces the authentication failure when
both attempts return null, never returning a plaintext in that case. -/
theorem C4_format_fallback_order (env : HybridEncryptedMessage) (eph : List Nat)
    (store : Storage) (userId : String) (ipk ppk : List Nat)
    (hid : getIdentityPrivateKey store userId = some ipk)
    (hne : ipk.isEmpty = false)
    (hpqc : getPqcPrivateKey store userId = some ppk) :
    decryptMessage env eph store userId false =
      match secretboxOpen env.ciphertext env.nonce
          (decryptFinalKey env.kemCapsule env.ephemeralPublicKey ipk ppk) with
      | some d => .ok d
      | none =>
        match boxOpenAfter env.ciphertext env.nonce
            (decryptFinalKey env.kemCapsule env.ephemeralPublicKey ipk ppk) with
        | some d => .ok d
        | none => .error .authenticationFailure :=
  decryptMessage_keys_present hid hne hpqc env eph

/-- C4 witness: the fallback cascade evaluated on the demo envelope front to
back. -/
theorem C4_format_fallback_order_witness :
    decryptMessage demoEnv demoEnv.ephemeralPublicKey demoStoreB "bob" false =
      match secretboxOpen demoEnv.ciphertext demoEnv.nonce
          (decryptFinalKey demoEnv.kemCapsule demoEnv.ephemeralPublicKey [3] [2]) with
      | some d => .ok d
      | none =>
        match boxOpenAfter demoEnv.ciphertext demoEnv.nonce
            (decryptFinalKey demoEnv.kemCapsule demoEnv.ephemeralPublicKey [3] [2]) with
        | some d => .ok d
        | none => .error .authenticationFailure :=
  C4_format_fallback_order demoEnv demoEnv.ephemeralPublicKey demoStoreB "bob"
    [3] [2] (by decide) (by decide) (by decide)

/-- C5: the legacy construction nacl.box.open.after and the current
construction nacl.secretbox.open are the same function
(crypto_box_open_afternm is crypto_secretbox_open), so the fallback branch
can never succeed on an input the primary attempt rejected, and the legacy
path authenticates exactly as the current one does. -/
theorem C5_legacy_open_coincides :
    (∀ box nonce key : List Nat,
      boxOpenAfter box nonce key = secretboxOpen box nonce key) ∧
    ∀ box nonce key : List Nat, secretboxOpen box nonce key = none →
      boxOpenAfter box nonce key = none :=
  ⟨fun _ _ _ => rfl, fun _ _ _ h => h⟩

/-- C5 witness: the coincidence evaluated at concrete inputs, including a
failing open. -/
theorem C5_legacy_open_coincides_witness :
    boxOpenAfter demoEnv.ciphertext demoEnv.nonce [9] =
      secretboxOpen demoEnv.ciphertext demoEnv.nonce [9] ∧
    boxOpenAfter [] [5] [9] = none :=
  ⟨C5_legacy_open_coincides.1 demoEnv.ciphertext demoEnv.nonce [9],
    C5_legacy_open_coincides.2 [] [5] [9] rfl⟩

/-- C6: when hasUserKeys is false for a user, every decryption attempt for
that user fails with one of the two key-not-found errors, raised by the key
lookups that run before any cryptographic step, and no placeholder key is
ever substituted. -/
theorem C6_missing_key_safety (store : Storage) (userId : String)
    (env : HybridEncryptedMessage) (eph : List Nat) (useOldFormat : Bool)
    (h : hasUserKeys store userId = false) :
    decryptMessage env eph store userId useOldFormat =
        .error (.identityKeyNotFound userId) ∨
      decryptMessage env eph store userId useOldFormat =
        .error (.pqcKeyNotFound userId) := by
  rw [hasUserKeys] at h
  cases hgid : getIdentityPrivateKey store userId with
  | none =>
    left
    rw [decryptMessage, hgid]
  | some v =>
    by_cases hv : v.isEmpty
    · left
      rw [decryptMessage, hgid]
      simp [hv]
    · right
      rw [getIdentityPrivateKey] at hgid
      rw [getIdentityPrivateKey] at h
      rw [hgid] at h
      simp only [jsTruthyStr, hv, Bool.not_false, Bool.true_and] at h
      have hnone : getPqcPrivateKey store userId = none :=
        Option.not_isSome_iff_eq_none.mp (by simp [h])
      rw [decryptMessage]
      rw [show getIdentityPrivateKey store userId = some v from hgid]
      simp [hv, hnone]

/-- C6 witness: decrypting for a user with no stored keys fails with a
key-not-found error. -/
theorem C6_missing_key_safety_witness :
    decryptMessage demoEnv demoEnv.ephemeralPublicKey [] "carol" false =
        .error (.identityKeyNotFound "carol") ∨
      decryptMessage demoEnv demoEnv.ephemeralPublicKey [] "carol" false =
        .error (.pqcKeyNotFound "carol") :=
  C6_missing_key_safety [] "carol" demoEnv demoEnv.ephemeralPublicKey false
    (by decide)

/-- C7: once the send path reaches its encryption section (nonempty trimmed
message, own and recipient key fields present), the inserted content is the
dual envelope exactly when both encryptMessage calls succeed, and nothing is
inserted when either of them fails: no partial dual envelope is ever
persisted. -/
theorem C7_send_atomicity (newMessage ownPk ownPqc recipPk recipPqc : List Nat)
    (ephSeed1 kemRand1 : Nat) (nonce1 : List Nat)
    (ephSeed2 kemRand2 : Nat) (nonce2 : List Nat)
    (hm : newMessage.isEmpty = false)
    (h1 : ownPk.isEmpty = false) (h2 : ownPqc.isEmpty = false)
    (h3 : recipPk.isEmpty = false) (h4 : recipPqc.isEmpty = false) :
    sendMessage newMessage (some ownPk) (some ownPqc) (some recipPk)
        (some recipPqc) ephSeed1 kemRand1 nonce1 ephSeed2 kemRand2 nonce2 =
      match encryptMessage newMessage recipPk recipPqc ephSeed1 kemRand1 nonce1 with
      | .error _ => none
      | .ok encryptedForRecipient =>
        match encryptMessage newMessage ownPk ownPqc ephSeed2 kemRand2 nonce2 with
        | .error _ => none
        | .ok encryptedForSelf =>
          some { forRecipient := encryptedForRecipient
                 forSender := encryptedForSelf } := by
  rw [sendMessage]
  simp [hm, h1, h2, h3, h4, jsTruthyStr]

/-- C7 witness: the abort path at concrete inputs whose recipient PQC key is
malformed, so the first encryption fails and nothing is inserted. -/
theorem C7_send_atomicity_witness :
    sendMessage demoMsg (some (boxPub [4])) (some (mlkemPub [6]))
        (some (boxPub [3])) (some [9]) 0 0 [5] 1 0 [6] =
      match encryptMessage demoMsg (boxPub [3]) [9] 0 0 [5] with
      | .error _ => none
      | .ok encryptedForRecipient =>
        match encryptMessage demoMsg (boxPub [4]) (mlkemPub [6]) 1 0 [6] with
        | .error _ => none
        | .ok encryptedForSelf =>
          some { forRecipient := encryptedForRecipient
                 forSender := encryptedForSelf } :=
  C7_send_atomicity demoMsg (boxPub [4]) (mlkemPub [6]) (boxPub [3]) [9]
    0 0 [5] 1 0 [6] (by decide) (by decide) (by decide) (by decide) (by decide)

/-- C8: a dual envelope built by the send path from honestly published keys
decrypts to the original plaintext both through its forRecipient half with
the recipient stored keys and through its forSender half with the sender
stored keys, the path loadMessages takes on a cache miss. -/
theorem C8_dual_readability (m skCA skPA skCB skPB : List Nat)
    (storeA storeB : Storage) (uidA uidB : String)
    (ephSeed1 kemRand1 : Nat) (nonce1 : List Nat)
    (ephSeed2 kemRand2 : Nat) (nonce2 : List Nat)
    (hm : m.isEmpty = false)
    (hidA : getIdentityPrivateKey storeA uidA = some skCA)
    (hneA : skCA.isEmpty = false)
    (hpqcA : getPqcPrivateKey storeA uidA = some skPA)
    (hidB : getIdentityPrivateKey storeB uidB = some skCB)
    (hneB : skCB.isEmpty = false)
    (hpqcB : getPqcPrivateKey storeB uidB = some skPB) :
    ∃ d, sendMessage m (some (boxPub skCA)) (some (mlkemPub skPA))
        (some (boxPub skCB)) (some (mlkemPub skPB))
        ephSeed1 kemRand1 nonce1 ephSeed2 kemRand2 nonce2 = some d ∧
      decryptMessage d.forRecipient d.forRecipient.ephemeralPublicKey storeB uidB
          false = .ok m ∧
      decryptMessage d.forSender d.forSender.ephemeralPublicKey storeA uidA
          false = .ok m := by
  refine ⟨{ forRecipient := honestEnvelope m skCB skPB ephSeed1 kemRand1 nonce1
            forSender := honestEnvelope m skCA skPA ephSeed2 kemRand2 nonce2 },
    ?_, ?_, ?_⟩
  · rw [sendMessage]
    simp only [hm, Bool.false_eq_true, if_false]
    rw [if_neg (by simp [jsTruthyStr, mlkemPub, boxPub, groupElemBytes])]
    rw [if_neg (by simp [jsTruthyStr, mlkemPub, boxPub, groupElemBytes])]
    simp only [Option.getD_some]
    rw [encryptMessage_honest hm skCB skPB ephSeed1 kemRand1 nonce1,
      encryptMessage_honest hm skCA skPA ephSeed2 kemRand2 nonce2]
  · exact decryptMessage_encryptMessage
      (encryptMessage_honest hm skCB skPB ephSeed1 kemRand1 nonce1) hidB hneB hpqcB
  · exact decryptMessage_encryptMessage
      (encryptMessage_honest hm skCA skPA ephSeed2 kemRand2 nonce2) hidA hneA hpqcA

/-- UTF-8 bytes of the plaintext hello world. -/
def demoHello : List Nat := [104, 101, 108, 108, 111, 32, 119, 111, 114, 108, 100]

/-- The dual envelope the demo send of hello world from alice to bob
produces. -/
def demoDual : DualEnvelope :=
  (sendMessage demoHello (some (boxPub [4])) (some (mlkemPub [6]))
      (some (boxPub [3])) (some (mlkemPub [2])) 0 0 [5] 1 0 [6]).getD
    ⟨⟨[], [], [], []⟩, ⟨[], [], [], []⟩⟩

/-- C8 witness: the concrete hello world dual envelope decrypts both ways. -/
theorem C8_dual_readability_witness :
    decryptMessage demoDual.forRecipient demoDual.forRecipient.ephemeralPublicKey
        demoStoreB "bob" false = .ok demoHello ∧
    decryptMessage demoDual.forSender demoDual.forSender.ephemeralPublicKey
        demoStoreA "alice" false = .ok demoHello := by
  obtain ⟨d, hsend, h1, h2⟩ := C8_dual_readability demoHello [4] [6] [3] [2]
    demoStoreA demoStoreB "alice" "bob" 0 0 [5] 1 0 [6] (by decide) (by decide)
    (by decide) (by decide) (by decide) (by decide) (by decide)
  have hd : demoDual = d := by
    rw [demoDual, hsend, Option.getD_some]
  rw [hd]
  exact ⟨h1, h2⟩

/-- C9: clearUserKeys removes both the classical and the PQC private-key
entries, is a no-op raising no error when the keys are absent, is
idempotent, and leaves hasUserKeys false. -/
theorem C9_clear_keys (store : Storage) (userId : String) :
    getItem (clearUserKeys store userId) (getIdentityPrivateKeyName userId) = none ∧
    getItem (clearUserKeys store userId) (getPqcIdentityPrivateKeyName userId) = none ∧
    (getItem store (getIdentityPrivateKeyName userId) = none →
      getItem store (getPqcIdentityPrivateKeyName userId) = none →
      clearUserKeys store userId = store) ∧
    clearUserKeys (clearUserKeys store userId) userId = clearUserKeys store userId ∧
    hasUserKeys (clearUserKeys store userId) userId = false := by
  refine ⟨?_, ?_, ?_, ?_, ?_⟩
  · rw [clearUserKeys,
      getItem_removeItem_ne (identityName_ne_pqcName userId),
      getItem_removeItem_self]
  · rw [clearUserKeys, getItem_removeItem_self]
  · intro h1 h2
    rw [clearUserKeys, removeItem_of_getItem_none h1, removeItem_of_getItem_none h2]
  · simp only [clearUserKeys]
    rw [removeItem_comm (removeItem store (getIdentityPrivateKeyName userId))
        (getPqcIdentityPrivateKeyName userId) (getIdentityPrivateKeyName userId),
      removeItem_removeItem, removeItem_removeItem]
  · rw [hasUserKeys, getIdentityPrivateKey, clearUserKeys,
      getItem_removeItem_ne (identityName_ne_pqcName userId),
      getItem_removeItem_self]
    rfl

/-- C9 witness: clearing an empty store changes nothing and leaves no keys. -/
theorem C9_clear_keys_witness :
    clearUserKeys [] "bob" = ([] : Storage) ∧
    hasUserKeys (clearUserKeys [] "bob") "bob" = false :=
  ⟨(C9_clear_keys [] "bob").2.2.1 rfl rfl, (C9_clear_keys [] "bob").2.2.2.2⟩

/-- C10: the first call for a conversation generates a fresh classical pair
and persists its private half; a call finding a stored private half returns
it with the public half recomputed from it and leaves the store unchanged;
any second call returns the same pair and store as the first; and after any
call the stored private half and the returned pair correspond. -/
theorem C10_conversation_key_stability (store : Storage) (conversationId : String)
    (seed : Nat) :
    (getEphemeralPrivateKey store conversationId = none →
      deriveConversationKeyPair store conversationId seed =
        ({ publicKey := boxPub (boxSecretKeyBytes seed)
           privateKey := boxSecretKeyBytes seed },
         storeEphemeralPrivateKey store conversationId (boxSecretKeyBytes seed))) ∧
    (∀ sk, getEphemeralPrivateKey store conversationId = some sk →
      sk.isEmpty = false →
      deriveConversationKeyPair store conversationId seed =
        ({ publicKey := boxPub sk, privateKey := sk }, store)) ∧
    (∀ seed2, deriveConversationKeyPair
        (deriveConversationKeyPair store conversationId seed).2 conversationId
        seed2 = deriveConversationKeyPair store conversationId seed) ∧
    getEphemeralPrivateKey (deriveConversationKeyPair store conversationId seed).2
        conversationId =
      some (deriveConversationKeyPair store conversationId seed).1.privateKey ∧
    (deriveConversationKeyPair store conversationId seed).1.publicKey =
      boxPub (deriveConversationKeyPair store conversationId seed).1.privateKey := by
  have hfreshne : (boxSecretKeyBytes seed).isEmpty = false := rfl
  have hstep : ∀ s2 : Storage, getEphemeralPrivateKey s2 conversationId =
      some (boxSecretKeyBytes seed) → ∀ seed2,
      deriveConversationKeyPair s2 conversationId seed2 =
        ({ publicKey := boxPub (boxSecretKeyBytes seed)
           privateKey := boxSecretKeyBytes seed }, s2) := by
    intro s2 hs2 seed2
    rw [deriveConversationKeyPair, hs2]
    simp [hfreshne, boxKeyPairFromSecretKey]
  cases hg : getEphemeralPrivateKey store conversationId with
  | none =>
    have hd : deriveConversationKeyPair store conversationId seed =
        ({ publicKey := boxPub (boxSecretKeyBytes seed)
           privateKey := boxSecretKeyBytes seed },
         storeEphemeralPrivateKey store conversationId (boxSecretKeyBytes seed)) := by
      rw [deriveConversationKeyPair, hg]
      rfl
    have hlook : getEphemeralPrivateKey
        (storeEphemeralPrivateKey store conversationId (boxSecretKeyBytes seed))
        conversationId = some (boxSecretKeyBytes seed) := by
      rw [getEphemeralPrivateKey, storeEphemeralPrivateKey, getItem_setItem_self]
    refine ⟨fun _ => hd, ?_, ?_, ?_, ?_⟩
    · intro sk hsk
      exact absurd hsk (by simp)
    · intro seed2
      rw [hd]
      exact hstep _ hlook seed2
    · rw [hd]
      exact hlook
    · rw [hd]
  | some sk =>
    by_cases hsk : sk.isEmpty
    · have hskNil : sk = [] := by
        cases sk with
        | nil => rfl
        | cons a t => simp at hsk
      have hd : deriveConversationKeyPair store conversationId seed =
          ({ publicKey := boxPub (boxSecretKeyBytes seed)
             privateKey := boxSecretKeyBytes seed },
           storeEphemeralPrivateKey store conversationId (boxSecretKeyBytes seed)) := by
        rw [deriveConversationKeyPair, hg, hskNil]
        rfl
      have hlook : getEphemeralPrivateKey
          (storeEphemeralPrivateKey store conversationId (boxSecretKeyBytes seed))
          conversationId = some (boxSecretKeyBytes seed) := by
        rw [getEphemeralPrivateKey, storeEphemeralPrivateKey, getItem_setItem_self]
      refine ⟨?_, ?_, ?_, ?_, ?_⟩
      · intro habs
        exact absurd habs (by simp)
      · intro sk2 hsk2 hne2
        have : sk = sk2 := by injection hsk2
        rw [← this, hskNil] at hne2
        exact absurd hne2 (by simp)
      · intro seed2
        rw [hd]
        exact hstep _ hlook seed2
      · rw [hd]
        exact hlook
      · rw [hd]
    · have hd : deriveConversationKeyPair store conversationId seed =
          ({ publicKey := boxPub sk, privateKey := sk }, store) := by
        rw [deriveConversationKeyPair, hg]
        simp [hsk, boxKeyPairFromSecretKey]
      refine ⟨?_, ?_, ?_, ?_, ?_⟩
      · intro habs
        exact absurd habs (by simp)
      · intro sk2 hsk2 _
        have : sk = sk2 := by injection hsk2
        rw [hd, this]
      · intro seed2
        rw [hd]
        show deriveConversationKeyPair store conversationId seed2 =
          ({ publicKey := boxPub sk, privateKey := sk }, store)
        rw [deriveConversationKeyPair, hg]
        simp [hsk, boxKeyPairFromSecretKey]
      · rw [hd]
        exact hg
      · rw [hd]

/-- C10 witness: a first call on the empty store persists the fresh private
half, and a second call with different randomness returns the same pair and
store. -/
theorem C10_conversation_key_stability_witness :
    deriveConversationKeyPair [] "conv" 0 =
      ({ publicKey := boxPub (boxSecretKeyBytes 0)
         privateKey := boxSecretKeyBytes 0 },
       storeEphemeralPrivateKey [] "conv" (boxSecretKeyBytes 0)) ∧
    deriveConversationKeyPair (deriveConversationKeyPair [] "conv" 0).2 "conv" 5 =
      deriveConversationKeyPair [] "conv" 0 :=
  ⟨(C10_conversation_key_stability [] "conv" 0).1 rfl,
    (C10_conversation_key_stability [] "conv" 0).2.2.1 5⟩

end ChatterShack

